import Mathlib

/-!
Shallow embedding of the `cursor-sub-agents` CLI core, together with proofs
of the behavioural properties of its agent lifecycle, state store, job/task
validation layer and detached scheduler.

The definitions below are transcribed from the TypeScript sources:
  * `src/types.ts`                — data model,
  * `src/commands/accept.ts`      — `acceptAgent`,
  * `src/commands/feedback.ts`    — `feedbackAgent`,
  * `completeAgent` (complete command),
  * `src/utils.ts`                — `findAgentById`, `loadState`, `saveState`,
                                    `cleanupOldSessions`, `loadTaskTypes`,
                                    `getCommandLocation`, `loadJobFileRaw`,
                                    `spawnAgent`, `listAllJobs`,
                                    `getAllAvailableCommands`,
  * `src/lib/validation.ts`       — `validateTaskStructure`, `validateAllTasks`,
  * `src/commands/spawn.ts`       — `spawnAgents`.

File-system, clock and JSON effects are made explicit as parameters
(environment records or function arguments); machine numbers are modelled as
`Nat`/`Int`/`ℚ`.
-/

/-- Agent status, from the union type in `src/types.ts`. -/
inductive AgentStatus
  | running
  | pending_verification
  | feedback_requested
  | approved
  | completed
  | failed
  | timeout
  deriving DecidableEq, Repr

/-- `AgentState` from `src/types.ts`; optional fields become `Option`. -/
structure AgentState where
  id : String
  prompt : String
  status : AgentStatus
  startedAt : String
  completedAt : Option String := none
  returnMessage : Option String := none
  error : Option String := none
  repository : Option String := none
  submittedAt : Option String := none
  verifiedAt : Option String := none
  feedback : Option String := none
  feedbackCount : Option Nat := none
  deriving DecidableEq, Repr

/-- A session entry of `AgentsRegistry` from `src/types.ts`. -/
structure Session where
  agents : List AgentState
  createdAt : String
  completedAt : Option String := none
  deriving DecidableEq, Repr

/-- `AgentsRegistry` from `src/types.ts`; the JS object `sessions` is an
ordered list of key/value entries (`Object.entries` order). -/
structure AgentsRegistry where
  sessions : List (String × Session)
  deriving DecidableEq, Repr

/-- The loop of `findAgentById` (`src/utils.ts`): scan sessions in order,
inside each session `agents.find(a => a.id === agentId)`. -/
def findAgentInSessions : List (String × Session) → String → Option (String × AgentState)
  | [], _ => none
  | (sid, s) :: rest, aid =>
    match s.agents.find? (fun a => a.id == aid) with
    | some a => some (sid, a)
    | none => findAgentInSessions rest aid

/-- `findAgentById` from `src/utils.ts`. -/
def findAgentById (state : AgentsRegistry) (agentId : String) : Option (String × AgentState) :=
  findAgentInSessions state.sessions agentId

/-- In-place mutation of the first agent with the given id (the object
returned by `agents.find` is mutated in the TS code). -/
def updateAgentFirst (f : AgentState → AgentState) (aid : String) :
    List AgentState → List AgentState
  | [] => []
  | a :: rest =>
    if a.id == aid then f a :: rest else a :: updateAgentFirst f aid rest

/-- Mutation through `findAgentById`: the first session containing the agent
id has its first matching agent mutated; everything else is untouched. -/
def updateAgentInSessions (f : AgentState → AgentState) (aid : String) :
    List (String × Session) → List (String × Session)
  | [] => []
  | (sid, s) :: rest =>
    if (s.agents.find? (fun a => a.id == aid)).isSome then
      (sid, { s with agents := updateAgentFirst f aid s.agents }) :: rest
    else
      (sid, s) :: updateAgentInSessions f aid rest

/-- Outcome of `acceptAgent` (`src/commands/accept.ts`): `notFound` and
`invalidState` end with `process.exit(1)`; `alreadyApproved` returns without
saving; `accepted` carries the registry passed to `saveState`. -/
inductive AcceptResult
  | notFound
  | alreadyApproved
  | invalidState (current : AgentStatus)
  | accepted (newState : AgentsRegistry)
  deriving DecidableEq, Repr

/-- The field assignments of `acceptAgent`: status `approved`, `verifiedAt`
and `completedAt` set to the current time. -/
def acceptUpdate (now : String) (a : AgentState) : AgentState :=
  { a with status := .approved, verifiedAt := some now, completedAt := some now }

/-- `acceptAgent` from `src/commands/accept.ts` (the state transition; the
console reporting after `saveState` does not touch the registry). -/
def acceptAgent (state : AgentsRegistry) (agentId now : String) : AcceptResult :=
  match findAgentById state agentId with
  | none => .notFound
  | some (_, agent) =>
    if agent.status = .approved then
      .alreadyApproved
    else if agent.status ≠ .pending_verification ∧ agent.status ≠ .feedback_requested then
      .invalidState agent.status
    else
      .accepted ⟨updateAgentInSessions (acceptUpdate now) agentId state.sessions⟩

/-- Outcome of `feedbackAgent` (`src/commands/feedback.ts`): both
`alreadyApprovedError` and `invalidState` end with `process.exit(1)`. -/
inductive FeedbackResult
  | notFound
  | alreadyApprovedError
  | invalidState (current : AgentStatus)
  | feedbackSent (newState : AgentsRegistry)
  deriving DecidableEq, Repr

/-- The field assignments of `feedbackAgent`: status `feedback_requested`,
`feedback` text and `verifiedAt` stored. -/
def feedbackUpdate (now msg : String) (a : AgentState) : AgentState :=
  { a with status := .feedback_requested, feedback := some msg, verifiedAt := some now }

/-- `feedbackAgent` from `src/commands/feedback.ts`. -/
def feedbackAgent (state : AgentsRegistry) (agentId msg now : String) : FeedbackResult :=
  match findAgentById state agentId with
  | none => .notFound
  | some (_, agent) =>
    if agent.status = .approved then
      .alreadyApprovedError
    else if agent.status ≠ .pending_verification then
      .invalidState agent.status
    else
      .feedbackSent ⟨updateAgentInSessions (feedbackUpdate now msg) agentId state.sessions⟩

/-- Outcome of the state-mutating part of `completeAgent` (the blocking wait
that follows the save is not part of the registry transition). -/
inductive CompleteResult
  | notFound
  | alreadyApproved
  | submitted (newState : AgentsRegistry)
  deriving DecidableEq, Repr

/-- The field assignments of `completeAgent`: `isResubmission` is read from
the status before it is overwritten; `returnMessage` is only assigned when a
message was supplied; `feedbackCount` increments on resubmission (an unset
count read as 0) and is otherwise initialised to 0 only when unset. -/
def completeUpdate (now : String) (msg : Option String) (a : AgentState) : AgentState :=
  let newReturn : Option String :=
    match msg with
    | some m => some m
    | none => a.returnMessage
  let newCount : Option Nat :=
    if a.status = .feedback_requested then
      some (a.feedbackCount.getD 0 + 1)
    else
      match a.feedbackCount with
      | none => some 0
      | some k => some k
  { a with status := .pending_verification, submittedAt := some now,
           returnMessage := newReturn, feedbackCount := newCount }

/-- `completeAgent` (complete command), state transition up to `saveState`. -/
def completeAgent (state : AgentsRegistry) (agentId : String) (msg : Option String)
    (now : String) : CompleteResult :=
  match findAgentById state agentId with
  | none => .notFound
  | some (_, agent) =>
    if agent.status = .approved then
      .alreadyApproved
    else
      .submitted ⟨updateAgentInSessions (completeUpdate now msg) agentId state.sessions⟩

/-! ### StateStore (`loadState` / `saveState`, `src/utils.ts`)

The `fs`, `proper-lockfile` and `JSON` library calls are abstracted as
outcome parameters; the control flow (the nested `try`/`catch`/`finally`
blocks) is transcribed from the source. -/

/-- The empty registry `{ sessions: {} }`. -/
def emptyRegistry : AgentsRegistry := ⟨[]⟩

/-- Outcomes of the external calls performed by `loadState`: lock
acquisition, reading the state file, `JSON.parse`, and lock release. -/
structure LoadEnv where
  lockResult : Except String Unit
  readResult : Except String String
  parse : String → Except String AgentsRegistry
  releaseResult : Except String Unit

/-- `loadState` from `src/utils.ts`.  The inner `try` returns the parsed
content and maps any read/parse failure to the empty registry; the `finally`
releases the lock (a release failure escapes to the outer `catch`); the
outer `catch` maps a lock-acquisition failure to the empty registry.  The
function is total: no branch propagates an error. -/
def loadState (env : LoadEnv) : AgentsRegistry :=
  match env.lockResult with
  | .error _ => emptyRegistry
  | .ok _ =>
    let inner : AgentsRegistry :=
      match env.readResult with
      | .error _ => emptyRegistry
      | .ok content =>
        match env.parse content with
        | .error _ => emptyRegistry
        | .ok reg => reg
    match env.releaseResult with
    | .error _ => emptyRegistry
    | .ok _ => inner

/-- File-system events emitted by `saveState`, in order: writing the temp
file, renaming it over the state file, unlinking it on failure. -/
inductive FsEvent
  | writeTemp (name content : String)
  | renameTempToState (name : String)
  | unlinkTemp (name : String)
  deriving DecidableEq, Repr

/-- Outcomes of the external calls performed by `saveState`, plus the
`Date.now()/Math.random()` suffix of the temp-file name and the
`JSON.stringify` serialisation. -/
structure SaveEnv where
  lockResult : Except String Unit
  tempSuffix : String
  stringify : AgentsRegistry → String
  writeResult : Except String Unit
  renameResult : Except String Unit
  releaseResult : Except String Unit

/-- The temp-file name `` `${STATE_FILE}.tmp.${Date.now()}.${random}` ``. -/
def tempFileName (stateFile suffix : String) : String :=
  stateFile ++ ".tmp." ++ suffix

/-- `saveState` from `src/utils.ts`: acquire the lock, write the serialised
registry to the temp file, rename it over the state file; on a write or
rename failure unlink the temp file and rethrow; the `finally` releases the
lock (a release failure escapes); the outer `catch` wraps any escaped error
in `Failed to save state`.  Returns the result together with the ordered
trace of file-system events (a failed `writeFile` may leave a partial file,
hence the `writeTemp` event is recorded before the write outcome is
examined, matching why the source unlinks on failure). -/
def saveState (stateFile : String) (env : SaveEnv) (state : AgentsRegistry) :
    Except String Unit × List FsEvent :=
  match env.lockResult with
  | .error e => (.error ("Failed to save state: " ++ e), [])
  | .ok _ =>
    let tempFile := tempFileName stateFile env.tempSuffix
    let stateContent := env.stringify state
    match env.writeResult with
    | .error we =>
      ( .error ("Failed to save state: " ++ we),
        [.writeTemp tempFile stateContent, .unlinkTemp tempFile] )
    | .ok _ =>
      match env.renameResult with
      | .error re =>
        ( .error ("Failed to save state: " ++ re),
          [.writeTemp tempFile stateContent, .renameTempToState tempFile,
           .unlinkTemp tempFile] )
      | .ok _ =>
        match env.releaseResult with
        | .error le =>
          ( .error ("Failed to save state: " ++ le),
            [.writeTemp tempFile stateContent, .renameTempToState tempFile] )
        | .ok _ =>
          (.ok (), [.writeTemp tempFile stateContent, .renameTempToState tempFile])

/-- No temp file is left behind by a trace: every temp write is followed by
a rename or an unlink of that name. -/
def noTempLeaked (events : List FsEvent) : Prop :=
  ∀ n c, FsEvent.writeTemp n c ∈ events →
    FsEvent.renameTempToState n ∈ events ∨ FsEvent.unlinkTemp n ∈ events

/-! ### `cleanupOldSessions` (`src/utils.ts`)

`new Date(s).getTime()` is abstracted as `parseDate : String → Option Int`
(`none` standing for `NaN`); `Date.now()` as `now : Int`. -/

/-- `24 * 60 * 60 * 1000`. -/
def twentyFourHoursMs : Int := 24 * 60 * 60 * 1000

/-- The filtering loop of `cleanupOldSessions`: sessions without
`completedAt` or with an unparsable date are kept; a session is removed when
`now - completedAtTime >= twentyFourHoursMs`.  Returns the kept entries (in
iteration order) and `removedCount`. -/
def cleanupPass (parseDate : String → Option Int) (now : Int) :
    List (String × Session) → List (String × Session) × Nat
  | [] => ([], 0)
  | (sid, s) :: rest =>
    let r := cleanupPass parseDate now rest
    match s.completedAt with
    | none => ((sid, s) :: r.1, r.2)
    | some c =>
      match parseDate c with
      | none => ((sid, s) :: r.1, r.2)
      | some t =>
        if now - t ≥ twentyFourHoursMs then
          (r.1, r.2 + 1)
        else
          ((sid, s) :: r.1, r.2)

/-- `cleanupOldSessions` core: the resulting registry, the removed count and
whether `saveState` was invoked (`removedCount > 0 ||
Object.keys(cleanedSessions).length !== sessionIds.length`). -/
def cleanupOldSessions (parseDate : String → Option Int) (now : Int)
    (state : AgentsRegistry) : AgentsRegistry × Nat × Bool :=
  let r := cleanupPass parseDate now state.sessions
  let saved := r.2 > 0 || r.1.length != state.sessions.length
  (⟨r.1⟩, r.2, saved)

/-! ### Scope merging: task types, jobs, commands -/

/-- The two storage scopes (global per-user vs project/local). -/
inductive Scope
  | globalScope
  | projectScope
  deriving DecidableEq, Repr

/-- A JS object mapping task-type names to command lists, as an ordered list
of key/value entries. -/
def TaskTypeMapping : Type := List (String × List String)

/-- Key lookup in a JS object (first entry with the key). -/
def ttLookup (m : TaskTypeMapping) (k : String) : Option (List String) :=
  (m.find? (fun p => p.1 == k)).map Prod.snd

/-- The spread merge `{ ...globalTypes, ...projectTypes }` of
`loadTaskTypes` (`src/utils.ts`): global keys keep their position but take
the project value when the project also defines the key; project-only keys
follow in project order. -/
def spreadMerge (globalTypes projectTypes : TaskTypeMapping) : TaskTypeMapping :=
  (globalTypes.map (fun kv =>
    match ttLookup projectTypes kv.1 with
    | some v => (kv.1, v)
    | none => kv))
  ++ projectTypes.filter (fun kv => (ttLookup globalTypes kv.1).isNone)

/-- `loadTaskTypes` (`src/utils.ts`) with the two file reads abstracted:
each scope yields a parsed mapping or fails (missing/invalid file). -/
def loadTaskTypes (defaults : TaskTypeMapping)
    (globalRead projectRead : Except String TaskTypeMapping) : TaskTypeMapping :=
  let globalTypes :=
    match globalRead with
    | .ok parsed => parsed
    | .error _ => defaults
  let projectTypes :=
    match projectRead with
    | .ok parsed => parsed
    | .error _ => []
  spreadMerge globalTypes projectTypes

/-- `loadJobFileRaw` (`src/utils.ts`): try the project (`local`) job file
first, fall back to the global one, else fail.  The job payload and the
read/parse outcome of each scope are abstracted. -/
def loadJobFileRaw (jobId : String) (localResult globalResult : Except String String) :
    Except String (String × Scope) :=
  match localResult with
  | .ok content => .ok (content, .projectScope)
  | .error _ =>
    match globalResult with
    | .ok content => .ok (content, .globalScope)
    | .error _ => .error ("Failed to load job " ++ jobId ++
        ": Job not found in local or global locations")

/-- `listAllJobs` (`src/utils.ts`) before the final sort: project jobs
first (location `local`/project), then global jobs not overridden by a
project job. -/
def listAllJobsUnsorted (projectJobs globalJobs : List String) :
    List (String × Scope) :=
  projectJobs.map (fun jobId => (jobId, Scope.projectScope)) ++
    (globalJobs.filter (fun jobId => !projectJobs.contains jobId)).map
      (fun jobId => (jobId, Scope.globalScope))

/-- `listAllJobs` (`src/utils.ts`): the job list sorted by id
(`localeCompare` abstracted as a Boolean comparison on ids). -/
def listAllJobs (le : String → String → Bool) (projectJobs globalJobs : List String) :
    List (String × Scope) :=
  (listAllJobsUnsorted projectJobs globalJobs).mergeSort
    (fun a b => le a.1 b.1)

/-- `getCommandLocation` (`src/utils.ts`): `fs.access` on the global
command file first, then the project one.  The two existence checks are
abstracted as Booleans. -/
def getCommandLocation (globalExists projectExists : Bool) : Option Scope :=
  if globalExists then some .globalScope
  else if projectExists then some .projectScope
  else none

/-- `commandExists` (`src/utils.ts`): a command exists when either scope has
the backing `.md` file (global checked first). -/
def commandExists (globalExists projectExists : Bool) : Bool :=
  if globalExists then true
  else if projectExists then true
  else false

/-- `validateCommandsExist` (`src/utils.ts` / `src/lib/commands.ts`): the
subset of names with no backing file, with existence abstracted per name. -/
def validateCommandsExist (exists? : String → Bool) (commands : List String) :
    List String :=
  commands.filter (fun command => !(exists? command))

/-! ### Command listing (`getAllAvailableCommands`, `src/utils.ts`)

Directory listings and file reads are abstracted in an environment. -/

/-- One entry of the `getAllAvailableCommands` result. -/
structure CommandEntry where
  name : String
  preview : String
  location : Scope
  deriving DecidableEq, Repr

/-- The two command directory listings and the per-file reads. -/
structure CommandsDirEnv where
  globalFiles : List String
  projectFiles : List String
  readGlobal : String → Except String String
  readProject : String → Except String String

/-- Prefix test on character lists (structural, so concrete inputs evaluate
in the kernel, unlike the position-based core `String` primitives). -/
def startsWithChars : List Char → List Char → Bool
  | _, [] => true
  | [], _ :: _ => false
  | c :: cs, p :: ps => c == p && startsWithChars cs ps

/-- Suffix test on character lists: JS `file.endsWith(".md")`. -/
def endsWithChars (s pat : List Char) : Bool :=
  startsWithChars s.reverse pat.reverse

/-- JS `String.prototype.replace` with a plain-string pattern replaces only
the first occurrence (the source's `file.replace(".md", "")` removes it). -/
def removeFirstOccur (pat : List Char) : List Char → List Char
  | [] => []
  | c :: cs =>
    if startsWithChars (c :: cs) pat then List.drop pat.length (c :: cs)
    else c :: removeFirstOccur pat cs

/-- `file.replace(".md", "")` and friends. -/
def replaceFirst (s pat : String) : String :=
  ⟨removeFirstOccur pat.toList s.toList⟩

/-- JS `content.split("\n")[0] || ""`: the text before the first newline. -/
def firstLine (content : String) : String :=
  ⟨content.toList.takeWhile (fun c => !(c == '\n'))⟩

/-- JS-style whitespace trim of both ends (`String.prototype.trim`). -/
def trimChars (l : List Char) : List Char :=
  ((l.dropWhile (·.isWhitespace)).reverse.dropWhile (·.isWhitespace)).reverse

/-- `firstLine.replace(/^#+\s*/, "")`: strip one leading run of `#` and the
whitespace after it (the regex requires at least one `#`; JS `\s` modelled
by `Char.isWhitespace`). -/
def stripHeaderHash (s : String) : String :=
  match s.toList with
  | '#' :: _ => ⟨(s.toList.dropWhile (· == '#')).dropWhile (·.isWhitespace)⟩
  | _ => s

/-- `firstLine.replace(/^#+\s*/, "").trim() || commandName`. -/
def commandPreview (commandName content : String) : String :=
  let p : String := ⟨trimChars (stripHeaderHash (firstLine content)).toList⟩
  if p = "" then commandName else p

/-- The global-directory loop of `getAllAvailableCommands`: every `.md`
file becomes an entry with location `global`; a read failure falls back to
the bare command name as preview. -/
def globalCommandEntries (env : CommandsDirEnv) : List CommandEntry :=
  env.globalFiles.filterMap (fun file =>
    if endsWithChars file.toList ".md".toList then
      let commandName := replaceFirst file ".md"
      match env.readGlobal file with
      | .ok content => some ⟨commandName, commandPreview commandName content, .globalScope⟩
      | .error _ => some ⟨commandName, commandName, .globalScope⟩
    else none)

/-- The project-directory loop of `getAllAvailableCommands`: a `.md` file
whose name is already in the accumulated list (in particular, any name the
global pass added) is skipped. -/
def addProjectCommands (env : CommandsDirEnv) :
    List String → List CommandEntry → List CommandEntry
  | [], acc => acc
  | file :: rest, acc =>
    if endsWithChars file.toList ".md".toList then
      let commandName := replaceFirst file ".md"
      if acc.any (fun c => c.name == commandName) then
        addProjectCommands env rest acc
      else
        match env.readProject file with
        | .ok content =>
          addProjectCommands env rest
            (acc ++ [⟨commandName, commandPreview commandName content, .projectScope⟩])
        | .error _ =>
          addProjectCommands env rest (acc ++ [⟨commandName, commandName, .projectScope⟩])
    else addProjectCommands env rest acc

/-- `getAllAvailableCommands` (`src/utils.ts`): global entries, then
non-duplicate project entries, sorted by name (`localeCompare` abstracted
as a Boolean comparison). -/
def getAllAvailableCommands (le : String → String → Bool) (env : CommandsDirEnv) :
    List CommandEntry :=
  (addProjectCommands env env.projectFiles (globalCommandEntries env)).mergeSort
    (fun a b => le a.name b.name)

/-! ### Task validation (`src/lib/validation.ts`) -/

/-- `Task` from `src/types.ts` (named `JobTask` here: `Task` is taken by the Lean core). -/
structure JobTask where
  name : String
  type : String
  files : List String
  prompt : String
  deriving DecidableEq, Repr

/-- `TaskValidationError` from `src/lib/validation.ts`. -/
structure TaskValidationError where
  taskIndex : Nat
  taskName : String
  error : String
  deriving DecidableEq, Repr

/-- `validateTaskStructure` (`src/lib/validation.ts`).  JS falsiness of the
string fields is emptiness; the `Array.isArray(task.files)` check is always
satisfied by a value of the typed `Task` shape and therefore never produces
its error here. -/
def validateTaskStructure (task : JobTask) (taskIndex : Nat)
    (allTaskTypes : TaskTypeMapping) : Option TaskValidationError :=
  if task.name = "" then
    some ⟨taskIndex + 1, "unnamed", "Task missing \x27name\x27 field"⟩
  else if task.type = "" then
    some ⟨taskIndex + 1, task.name, "Task missing \x27type\x27 field"⟩
  else if task.prompt = "" then
    some ⟨taskIndex + 1, task.name, "Task missing \x27prompt\x27 field"⟩
  else if (ttLookup allTaskTypes task.type).isNone then
    some ⟨taskIndex + 1, task.name,
      "Task type \"" ++ task.type ++ "\" not found. Available types: " ++
        String.intercalate ", " (allTaskTypes.map Prod.fst)⟩
  else none

/-- The loop body of `validateAllTasks`: structure check, then the
no-commands check, then the command-existence check — at most one error
per task, first failure wins. -/
def taskError (exists? : String → Bool) (allTaskTypes : TaskTypeMapping)
    (taskIndex : Nat) (task : JobTask) : Option TaskValidationError :=
  match validateTaskStructure task taskIndex allTaskTypes with
  | some e => some e
  | none =>
    let commands := (ttLookup allTaskTypes task.type).getD []
    if commands.length = 0 then
      some ⟨taskIndex + 1, task.name,
        "Task type \"" ++ task.type ++ "\" has no commands defined"⟩
    else
      let missing := validateCommandsExist exists? commands
      if missing.length > 0 then
        some ⟨taskIndex + 1, task.name,
          "Missing commands: " ++ String.intercalate ", " missing⟩
      else none

/-- The accumulating loop of `validateAllTasks` over `tasks.entries()`. -/
def validateAllTasksAux (exists? : String → Bool) (allTaskTypes : TaskTypeMapping) :
    Nat → List JobTask → List TaskValidationError
  | _, [] => []
  | taskIndex, task :: rest =>
    match taskError exists? allTaskTypes taskIndex task with
    | some e => e :: validateAllTasksAux exists? allTaskTypes (taskIndex + 1) rest
    | none => validateAllTasksAux exists? allTaskTypes (taskIndex + 1) rest

/-- `validateAllTasks` (`src/lib/validation.ts`). -/
def validateAllTasks (exists? : String → Bool) (allTaskTypes : TaskTypeMapping)
    (tasks : List JobTask) : List TaskValidationError :=
  validateAllTasksAux exists? allTaskTypes 0 tasks

/-! ### Detached scheduler (`spawnAgent`, `src/utils.ts`; `spawnAgents`,
`src/commands/spawn.ts`)

Each detached `sleep <offset> && <operation>` command is represented as a
scheduled operation with its offset in seconds; JS floating-point seconds
are modelled exactly in `ℚ` (every value `length * 0.01` has two decimal
digits, which is also the precision the source formats with `toFixed(2)`). -/

/-- The operation fired by one detached command. -/
inductive ScheduledKind
  | openLink (url : String)
  | pressEnter
  | typeText (text : String)
  deriving DecidableEq, Repr

/-- One detached command: its absolute offset in seconds and operation. -/
structure ScheduledOp where
  offset : ℚ
  kind : ScheduledKind
  deriving DecidableEq, Repr

/-- `Math.max(0.5, followUp.length * 0.01)` — the estimated typing time of a
follow-up prompt, in seconds. -/
def typingTime (followUp : String) : ℚ :=
  max (1/2) ((followUp.length : ℚ) * (1/100))

/-- The `followUps.forEach` loop of `spawnAgent`: follow-up `index` types at
`currentDelay + index * 4` (with `currentDelay = delaySeconds + 6`) and its
Enter fires an estimated typing time later. -/
def followUpOps (delaySeconds : ℚ) : Nat → List String → List ScheduledOp
  | _, [] => []
  | index, followUp :: rest =>
    let typeDelay := delaySeconds + 6 + 4 * (index : ℚ)
    ⟨typeDelay, .typeText followUp⟩ ::
      ⟨typeDelay + typingTime followUp, .pressEnter⟩ ::
        followUpOps delaySeconds (index + 1) rest

/-- The full schedule of one `spawnAgent` call in detached mode: open the
link at `delaySeconds`, Enter at `+2`, Enter at `+4`, then the follow-up
prompts. -/
def spawnAgentSchedule (delaySeconds : ℚ) (url : String) (followUps : List String) :
    List ScheduledOp :=
  ⟨delaySeconds, .openLink url⟩ ::
    ⟨delaySeconds + 2, .pressEnter⟩ ::
      ⟨delaySeconds + 4, .pressEnter⟩ ::
        followUpOps delaySeconds 0 followUps

/-- `DEFAULT_FOLLOW_UP_PROMPTS` (`src/utils.ts`). -/
def DEFAULT_FOLLOW_UP_PROMPTS : List String :=
  ["Verify if the changes you have implemented are actually working and align with the instructions provided!",
   "to hand off your work run the following command: csa complete \x7bagentId\x7d"]

/-- Fuel-based replace-all (JS `replace(/pat/g, repl)` for a fixed nonempty
pattern), structural so the kernel can evaluate it; the fuel is the input
length, enough since every step consumes at least one character. -/
def replaceAllAux (pat repl : List Char) : Nat → List Char → List Char
  | 0, l => l
  | _, [] => []
  | fuel + 1, c :: cs =>
    if startsWithChars (c :: cs) pat && decide (0 < pat.length) then
      repl ++ replaceAllAux pat repl fuel (List.drop (pat.length - 1) cs)
    else c :: replaceAllAux pat repl fuel cs

/-- JS `String.prototype.replace` with a `/g` regex of a literal pattern. -/
def replaceAll (s pat repl : String) : String :=
  ⟨replaceAllAux pat.toList repl.toList s.toList.length s.toList⟩

/-- `getDefaultPrompts` (`src/utils.ts`): substitute every occurrence of the
`\x7bagentId\x7d` placeholder. -/
def getDefaultPrompts (agentId : String) : List String :=
  DEFAULT_FOLLOW_UP_PROMPTS.map (fun prompt => replaceAll prompt "\x7bagentId\x7d" agentId)

/-- The per-agent start offset of `spawnAgents` (`src/commands/spawn.ts`):
`const delaySeconds = index * 6`. -/
def spawnAgentsDelay (index : Nat) : ℚ :=
  (index : ℚ) * 6

/-- The largest offset occurring in a schedule (the time of its last
scheduled operation), measured with the open time as floor. -/
def scheduleMaxOffset (openAt : ℚ) (ops : List ScheduledOp) : ℚ :=
  ops.foldl (fun m o => max m o.offset) openAt

/-- Total duration of one agent's automation sequence: time from its open
to its last scheduled operation. -/
def scheduleDuration (delaySeconds : ℚ) (url : String) (followUps : List String) : ℚ :=
  scheduleMaxOffset delaySeconds (spawnAgentSchedule delaySeconds url followUps) - delaySeconds

/-! ### Lifecycle lemmas -/

/-- `find?` after mutating the first matching agent returns the mutated
agent, provided the mutation preserves the id. -/
theorem find?_updateAgentFirst (f : AgentState → AgentState) (aid : String)
    (hf : ∀ a, (f a).id = a.id) (l : List AgentState) :
    (updateAgentFirst f aid l).find? (fun a => a.id == aid)
      = (l.find? (fun a => a.id == aid)).map f := by
  induction l with
  | nil => rfl
  | cons a rest ih =>
    by_cases h : (a.id == aid) = true
    · have h' : ((f a).id == aid) = true := by rw [hf a]; exact h
      rw [updateAgentFirst, if_pos h]
      simp [List.find?_cons, h, h']
    · rw [updateAgentFirst, if_neg h]
      simp only [List.find?_cons, h, cond_false, ih]

/-- `findAgentById` after `updateAgentInSessions` finds the mutated agent in
the same session, provided the mutation preserves the id. -/
theorem findAgentInSessions_update (f : AgentState → AgentState) (aid : String)
    (hf : ∀ a, (f a).id = a.id) (ss : List (String × Session)) :
    findAgentInSessions (updateAgentInSessions f aid ss) aid
      = (findAgentInSessions ss aid).map (fun p => (p.1, f p.2)) := by
  induction ss with
  | nil => rfl
  | cons p rest ih =>
    obtain ⟨sid, s⟩ := p
    cases hfind : s.agents.find? (fun a => a.id == aid) with
    | some a =>
      rw [updateAgentInSessions, if_pos (by rw [hfind]; rfl)]
      show (match (updateAgentFirst f aid s.agents).find? (fun a => a.id == aid) with
        | some a => some (sid, a)
        | none => findAgentInSessions _ aid)
          = (findAgentInSessions ((sid, s) :: rest) aid).map (fun p => (p.1, f p.2))
      rw [find?_updateAgentFirst f aid hf, hfind]
      show some (sid, f a) = (findAgentInSessions ((sid, s) :: rest) aid).map _
      rw [findAgentInSessions, hfind]
      rfl
    | none =>
      rw [updateAgentInSessions, if_neg (by rw [hfind]; exact Bool.false_ne_true)]
      show (match s.agents.find? (fun a => a.id == aid) with
        | some a => some (sid, a)
        | none => findAgentInSessions (updateAgentInSessions f aid rest) aid)
          = (findAgentInSessions ((sid, s) :: rest) aid).map (fun p => (p.1, f p.2))
      rw [hfind, ih]
      show (findAgentInSessions rest aid).map _
          = (findAgentInSessions ((sid, s) :: rest) aid).map _
      rw [findAgentInSessions, hfind]

/-- Reduction of `acceptAgent` once the agent lookup is known. -/
theorem acceptAgent_eq (state : AgentsRegistry) (agentId now sid : String) (a : AgentState)
    (hfind : findAgentById state agentId = some (sid, a)) :
    acceptAgent state agentId now =
      (if a.status = .approved then .alreadyApproved
       else if a.status ≠ .pending_verification ∧ a.status ≠ .feedback_requested then
         .invalidState a.status
       else
         .accepted ⟨updateAgentInSessions (acceptUpdate now) agentId state.sessions⟩) := by
  unfold acceptAgent
  rw [hfind]

/-- Reduction of `feedbackAgent` once the agent lookup is known. -/
theorem feedbackAgent_eq (state : AgentsRegistry) (agentId msg now sid : String) (a : AgentState)
    (hfind : findAgentById state agentId = some (sid, a)) :
    feedbackAgent state agentId msg now =
      (if a.status = .approved then .alreadyApprovedError
       else if a.status ≠ .pending_verification then .invalidState a.status
       else
         .feedbackSent ⟨updateAgentInSessions (feedbackUpdate now msg) agentId state.sessions⟩) := by
  unfold feedbackAgent
  rw [hfind]

/-- Reduction of `completeAgent` once the agent lookup is known. -/
theorem completeAgent_eq (state : AgentsRegistry) (agentId : String) (msg : Option String)
    (now sid : String) (a : AgentState)
    (hfind : findAgentById state agentId = some (sid, a)) :
    completeAgent state agentId msg now =
      (if a.status = .approved then .alreadyApproved
       else
         .submitted ⟨updateAgentInSessions (completeUpdate now msg) agentId state.sessions⟩) := by
  unfold completeAgent
  rw [hfind]

/-- C1: for every agent, `acceptAgent` changes the status to `approved`
(setting `verifiedAt` and `completedAt`) only from `pending_verification` or
`feedback_requested`; on an already-approved agent it is a distinguished
no-op rather than an error; every other starting status is rejected with an
invalid-state error.  `feedbackAgent` succeeds only from
`pending_verification` (storing the feedback text and `verifiedAt` and
setting `feedback_requested`), and is rejected for every other status, with
a dedicated error for an already-approved agent. -/
theorem accept_feedback_transition_legality
    (state : AgentsRegistry) (agentId now fb : String) (sid : String) (a : AgentState)
    (hfind : findAgentById state agentId = some (sid, a)) :
    (a.status = .approved →
        acceptAgent state agentId now = .alreadyApproved ∧
        feedbackAgent state agentId fb now = .alreadyApprovedError) ∧
    ((a.status = .pending_verification ∨ a.status = .feedback_requested) →
        ∃ reg' a', acceptAgent state agentId now = .accepted reg' ∧
          findAgentById reg' agentId = some (sid, a') ∧
          a'.status = .approved ∧ a'.verifiedAt = some now ∧ a'.completedAt = some now) ∧
    (a.status ≠ .approved → a.status ≠ .pending_verification →
        a.status ≠ .feedback_requested →
        acceptAgent state agentId now = .invalidState a.status) ∧
    (a.status = .pending_verification →
        ∃ reg' a', feedbackAgent state agentId fb now = .feedbackSent reg' ∧
          findAgentById reg' agentId = some (sid, a') ∧
          a'.status = .feedback_requested ∧ a'.feedback = some fb ∧
          a'.verifiedAt = some now) ∧
    (a.status ≠ .pending_verification →
        ∀ reg', feedbackAgent state agentId fb now ≠ .feedbackSent reg') := by
  refine ⟨?_, ?_, ?_, ?_, ?_⟩
  · intro h
    rw [acceptAgent_eq state agentId now sid a hfind,
      feedbackAgent_eq state agentId fb now sid a hfind]
    simp [h]
  · intro h
    refine ⟨⟨updateAgentInSessions (acceptUpdate now) agentId state.sessions⟩,
      acceptUpdate now a, ?_, ?_, rfl, rfl, rfl⟩
    · rw [acceptAgent_eq state agentId now sid a hfind]
      rcases h with h | h <;> simp [h]
    · show findAgentInSessions (updateAgentInSessions (acceptUpdate now) agentId state.sessions)
        agentId = some (sid, acceptUpdate now a)
      rw [findAgentInSessions_update (acceptUpdate now) agentId (fun _ => rfl)]
      rw [show findAgentInSessions state.sessions agentId = some (sid, a) from hfind]
      rfl
  · intro h1 h2 h3
    rw [acceptAgent_eq state agentId now sid a hfind]
    rw [if_neg h1, if_pos ⟨h2, h3⟩]
  · intro h
    refine ⟨⟨updateAgentInSessions (feedbackUpdate now fb) agentId state.sessions⟩,
      feedbackUpdate now fb a, ?_, ?_, rfl, rfl, rfl⟩
    · rw [feedbackAgent_eq state agentId fb now sid a hfind]
      simp [h]
    · show findAgentInSessions (updateAgentInSessions (feedbackUpdate now fb) agentId
        state.sessions) agentId = some (sid, feedbackUpdate now fb a)
      rw [findAgentInSessions_update (feedbackUpdate now fb) agentId (fun _ => rfl)]
      rw [show findAgentInSessions state.sessions agentId = some (sid, a) from hfind]
      rfl
  · intro h reg'
    rw [feedbackAgent_eq state agentId fb now sid a hfind]
    by_cases ha : a.status = .approved
    · rw [if_pos ha]
      exact fun hc => FeedbackResult.noConfusion hc
    · rw [if_neg ha, if_pos h]
      exact fun hc => FeedbackResult.noConfusion hc

/-- A minimal agent record used by the concrete witnesses. -/
def mkAgent (i : String) (st : AgentStatus) : AgentState :=
  { id := i, prompt := "p", status := st, startedAt := "2024-01-01T00:00:00Z" }

/-- A one-session registry with agents in assorted statuses. -/
def lifecycleFixture : AgentsRegistry :=
  ⟨[("s1",
      { agents := [mkAgent "a1" .pending_verification, mkAgent "a2" .approved,
                   mkAgent "a3" .running, mkAgent "a4" .feedback_requested],
        createdAt := "2024-01-01T00:00:00Z" })]⟩

/-- Witness for C1 on a concrete registry: the lookup hypothesis holds for
agent `a1` and accepting it from `pending_verification` succeeds. -/
theorem accept_feedback_transition_legality_witness :
    findAgentById lifecycleFixture "a1" = some ("s1", mkAgent "a1" .pending_verification) ∧
    (∃ reg' a', acceptAgent lifecycleFixture "a1" "t1" = .accepted reg' ∧
      findAgentById reg' "a1" = some ("s1", a') ∧
      a'.status = .approved ∧ a'.verifiedAt = some "t1" ∧ a'.completedAt = some "t1") := by
  have h := accept_feedback_transition_legality lifecycleFixture "a1" "t1" "redo"
    "s1" (mkAgent "a1" .pending_verification) (by rfl)
  exact ⟨by rfl, h.2.1 (Or.inl rfl)⟩

/-- C2: reporting completion on an agent that is not already approved sets
`pending_verification` and `submittedAt`, stores the return message when one
is supplied, increments `feedbackCount` (unset read as 0) when the agent was
in `feedback_requested`, and otherwise initialises it to 0 when unset
(keeping an already-set count). -/
theorem complete_submission_transition
    (state : AgentsRegistry) (agentId now : String) (msg : Option String)
    (sid : String) (a : AgentState)
    (hfind : findAgentById state agentId = some (sid, a))
    (hna : a.status ≠ .approved) :
    ∃ reg' a', completeAgent state agentId msg now = .submitted reg' ∧
      findAgentById reg' agentId = some (sid, a') ∧
      a'.status = .pending_verification ∧
      a'.submittedAt = some now ∧
      (∀ m, msg = some m → a'.returnMessage = some m) ∧
      a'.feedbackCount = some (if a.status = .feedback_requested then
        a.feedbackCount.getD 0 + 1 else a.feedbackCount.getD 0) := by
  refine ⟨⟨updateAgentInSessions (completeUpdate now msg) agentId state.sessions⟩,
    completeUpdate now msg a, ?_, ?_, rfl, rfl, ?_, ?_⟩
  · rw [completeAgent_eq state agentId msg now sid a hfind, if_neg hna]
  · show findAgentInSessions (updateAgentInSessions (completeUpdate now msg) agentId
      state.sessions) agentId = some (sid, completeUpdate now msg a)
    rw [findAgentInSessions_update (completeUpdate now msg) agentId (fun _ => rfl)]
    rw [show findAgentInSessions state.sessions agentId = some (sid, a) from hfind]
    rfl
  · intro m hm
    subst hm
    rfl
  · show (if a.status = .feedback_requested then some (a.feedbackCount.getD 0 + 1)
      else match a.feedbackCount with | none => some 0 | some k => some k) = _
    by_cases hr : a.status = .feedback_requested
    · rw [if_pos hr, if_pos hr]
    · rw [if_neg hr, if_neg hr]
      cases a.feedbackCount <;> rfl

/-- Witness for C2: agent `a4` is in `feedback_requested` with an unset
`feedbackCount`; completing it with message `done` yields
`pending_verification` with `feedbackCount = 1` and the message stored. -/
theorem complete_submission_transition_witness :
    findAgentById lifecycleFixture "a4" = some ("s1", mkAgent "a4" .feedback_requested) ∧
    (∃ reg' a', completeAgent lifecycleFixture "a4" (some "done") "t2" = .submitted reg' ∧
      findAgentById reg' "a4" = some ("s1", a') ∧
      a'.status = .pending_verification ∧ a'.submittedAt = some "t2" ∧
      a'.returnMessage = some "done" ∧ a'.feedbackCount = some 1) := by
  have h := complete_submission_transition lifecycleFixture "a4" "t2" (some "done")
    "s1" (mkAgent "a4" .feedback_requested) (by rfl) (by intro hc; cases hc)
  obtain ⟨reg', a', h1, h2, h3, h4, h5, h6⟩ := h
  exact ⟨by rfl, reg', a', h1, h2, h3, h4, h5 "done" rfl, by rw [h6]; rfl⟩

/-! ### Frame lemmas for C9 -/

/-- A list with a first match for an id decomposes around that match, and
`updateAgentFirst` rewrites exactly that element. -/
theorem updateAgentFirst_decomp (f : AgentState → AgentState) (aid : String)
    (l : List AgentState) (h : (l.find? (fun a => a.id == aid)).isSome = true) :
    ∃ pre a suf, l = pre ++ a :: suf ∧ (∀ b ∈ pre, b.id ≠ aid) ∧ a.id = aid ∧
      updateAgentFirst f aid l = pre ++ f a :: suf := by
  induction l with
  | nil => simp [List.find?] at h
  | cons a rest ih =>
    by_cases hb : (a.id == aid) = true
    · exact ⟨[], a, rest, rfl, by simp, by simpa using hb,
        by rw [updateAgentFirst, if_pos hb]; rfl⟩
    · have h' : (rest.find? (fun x => x.id == aid)).isSome = true := by
        rwa [List.find?_cons_of_neg _ (by simpa using hb)] at h
      obtain ⟨pre, b, suf, hl, hpre, hbid, hupd⟩ := ih h'
      refine ⟨a :: pre, b, suf, by rw [hl]; rfl, ?_, hbid,
        by rw [updateAgentFirst, if_neg hb, hupd]; rfl⟩
      intro x hx
      rcases List.mem_cons.mp hx with hx | hx
      · subst hx; simpa using hb
      · exact hpre x hx

/-- A session list with a match decomposes around the first session holding
the id, and `updateAgentInSessions` rewrites exactly that session's agent
list, keeping its `createdAt`/`completedAt`. -/
theorem updateAgentInSessions_decomp (f : AgentState → AgentState) (aid : String)
    (ss : List (String × Session)) (h : (findAgentInSessions ss aid).isSome = true) :
    ∃ sPre sid s sSuf,
      ss = sPre ++ (sid, s) :: sSuf ∧
      (∀ p ∈ sPre, ∀ b ∈ p.2.agents, b.id ≠ aid) ∧
      (s.agents.find? (fun a => a.id == aid)).isSome = true ∧
      updateAgentInSessions f aid ss
        = sPre ++ (sid, { s with agents := updateAgentFirst f aid s.agents }) :: sSuf := by
  induction ss with
  | nil => simp [findAgentInSessions] at h
  | cons p rest ih =>
    obtain ⟨sid, s⟩ := p
    cases hfind : s.agents.find? (fun a => a.id == aid) with
    | some a =>
      refine ⟨[], sid, s, rest, rfl, by simp, by rw [hfind]; rfl, ?_⟩
      rw [updateAgentInSessions, if_pos (by rw [hfind]; rfl)]
      rfl
    | none =>
      have h' : (findAgentInSessions rest aid).isSome = true := by
        rw [findAgentInSessions, hfind] at h
        exact h
      obtain ⟨sPre, sid', s', sSuf, hss, hpre, hfind', hupd⟩ := ih h'
      refine ⟨(sid, s) :: sPre, sid', s', sSuf, by rw [hss]; rfl, ?_, hfind', ?_⟩
      · intro q hq
        rcases List.mem_cons.mp hq with hq | hq
        · subst hq
          intro b hb
          have := List.find?_eq_none.mp hfind b hb
          simpa using this
        · exact hpre q hq
      · rw [updateAgentInSessions, if_neg (by rw [hfind]; exact Bool.false_ne_true), hupd]
        rfl

/-- The frame specification of an accepted `acceptAgent` call: the registry
decomposes around the single matched agent; all other sessions and agents,
and the matched session's `createdAt`/`completedAt`, are untouched; the
matched agent changes only `status`, `verifiedAt` and `completedAt`. -/
def acceptFrameSpec (state : AgentsRegistry) (agentId now : String)
    (reg' : AgentsRegistry) : Prop :=
  ∃ sPre sid sess sSuf aPre a aSuf a',
    state.sessions = sPre ++ (sid, sess) :: sSuf ∧
    sess.agents = aPre ++ a :: aSuf ∧
    (∀ p ∈ sPre, ∀ b ∈ p.2.agents, b.id ≠ agentId) ∧
    (∀ b ∈ aPre, b.id ≠ agentId) ∧
    a.id = agentId ∧
    reg' = ⟨sPre ++ (sid, { sess with agents := aPre ++ a' :: aSuf }) :: sSuf⟩ ∧
    a'.id = a.id ∧ a'.prompt = a.prompt ∧ a'.startedAt = a.startedAt ∧
    a'.returnMessage = a.returnMessage ∧ a'.error = a.error ∧
    a'.repository = a.repository ∧ a'.submittedAt = a.submittedAt ∧
    a'.feedback = a.feedback ∧ a'.feedbackCount = a.feedbackCount ∧
    a'.status = .approved ∧ a'.verifiedAt = some now ∧ a'.completedAt = some now

/-- C9: a successful `acceptAgent` mutates only the single matched agent —
every other agent and session is carried over verbatim, session timestamps
are unchanged, and only `status`, `verifiedAt`, `completedAt` of the matched
agent differ. -/
theorem accept_frame_effect (state : AgentsRegistry) (agentId now : String)
    (reg' : AgentsRegistry)
    (h : acceptAgent state agentId now = .accepted reg') :
    acceptFrameSpec state agentId now reg' := by
  cases hfind : findAgentById state agentId with
  | none =>
    rw [acceptAgent, hfind] at h
    cases h
  | some p =>
    obtain ⟨sid0, a0⟩ := p
    rw [acceptAgent_eq state agentId now sid0 a0 hfind] at h
    by_cases h1 : a0.status = .approved
    · rw [if_pos h1] at h; cases h
    · rw [if_neg h1] at h
      by_cases h2 : a0.status ≠ .pending_verification ∧ a0.status ≠ .feedback_requested
      · rw [if_pos h2] at h; cases h
      · rw [if_neg h2] at h
        have hreg : reg' = ⟨updateAgentInSessions (acceptUpdate now) agentId state.sessions⟩ := by
          cases h; rfl
        have hsome : (findAgentInSessions state.sessions agentId).isSome = true := by
          rw [show findAgentInSessions state.sessions agentId = some (sid0, a0) from hfind]
          rfl
        obtain ⟨sPre, sid, s, sSuf, hss, hpre, hfind', hupd⟩ :=
          updateAgentInSessions_decomp (acceptUpdate now) agentId state.sessions hsome
        obtain ⟨aPre, a, aSuf, hag, hapre, haid, hupd2⟩ :=
          updateAgentFirst_decomp (acceptUpdate now) agentId s.agents hfind'
        refine ⟨sPre, sid, s, sSuf, aPre, a, aSuf, acceptUpdate now a,
          hss, hag, hpre, hapre, haid, ?_, rfl, rfl, rfl, rfl, rfl, rfl, rfl, rfl, rfl,
          rfl, rfl, rfl⟩
        rw [hreg, hupd, hupd2]

/-- Witness for C9: accepting agent `a1` of the concrete registry satisfies
the hypothesis, and the frame specification holds for the saved registry. -/
theorem accept_frame_effect_witness :
    acceptAgent lifecycleFixture "a1" "t1"
      = .accepted ⟨updateAgentInSessions (acceptUpdate "t1") "a1" lifecycleFixture.sessions⟩ ∧
    acceptFrameSpec lifecycleFixture "a1" "t1"
      ⟨updateAgentInSessions (acceptUpdate "t1") "a1" lifecycleFixture.sessions⟩ :=
  ⟨by rfl, accept_frame_effect lifecycleFixture "a1" "t1" _ (by rfl)⟩

/-! ### C3: StateStore fails open on load, fails loud on save -/

/-- The temp-file name is strictly longer than the state-file name, hence
distinct from it: the rename really replaces the state file with another
path's content. -/
theorem tempFileName_ne (stateFile suffix : String) :
    tempFileName stateFile suffix ≠ stateFile := by
  intro h
  have hlen := congrArg String.length h
  rw [tempFileName, String.length_append, String.length_append] at hlen
  have h5 : (".tmp." : String).length = 5 := rfl
  rw [h5] at hlen
  omega

/-- C3: `loadState` is total and returns the empty registry on a lock,
read, or parse failure (and the parsed registry when everything succeeds);
`saveState` writes the serialised registry to the distinct temp file and
renames it over the state file on success, and on a lock, write, or rename
failure it propagates an error and leaves no temp file behind. -/
theorem statestore_load_fails_open_save_fails_loud
    (lenv : LoadEnv) (stateFile : String) (senv : SaveEnv) (reg : AgentsRegistry) :
    ((∃ e, lenv.lockResult = .error e) → loadState lenv = emptyRegistry) ∧
    ((∃ e, lenv.readResult = .error e) → loadState lenv = emptyRegistry) ∧
    (∀ content, lenv.readResult = .ok content → (∃ e, lenv.parse content = .error e) →
      loadState lenv = emptyRegistry) ∧
    (∀ content parsed, lenv.lockResult = .ok () → lenv.releaseResult = .ok () →
      lenv.readResult = .ok content → lenv.parse content = .ok parsed →
      loadState lenv = parsed) ∧
    (senv.lockResult = .ok () → senv.writeResult = .ok () → senv.renameResult = .ok () →
      senv.releaseResult = .ok () →
      saveState stateFile senv reg =
        (.ok (), [.writeTemp (tempFileName stateFile senv.tempSuffix) (senv.stringify reg),
                  .renameTempToState (tempFileName stateFile senv.tempSuffix)]) ∧
      tempFileName stateFile senv.tempSuffix ≠ stateFile) ∧
    (((∃ e, senv.lockResult = .error e) ∨ (∃ e, senv.writeResult = .error e) ∨
        (∃ e, senv.renameResult = .error e)) →
      (∃ msg, (saveState stateFile senv reg).1 = .error msg) ∧
        noTempLeaked (saveState stateFile senv reg).2) := by
  refine ⟨?_, ?_, ?_, ?_, ?_, ?_⟩
  · rintro ⟨e, he⟩
    rw [loadState, he]
  · rintro ⟨e, he⟩
    rw [loadState, he]
    cases hl : lenv.lockResult <;> cases hr : lenv.releaseResult <;> rfl
  · rintro content hc ⟨e, he⟩
    simp only [loadState, hc, he]
    cases hl : lenv.lockResult <;> cases hr : lenv.releaseResult <;> rfl
  · intro content parsed hl hrel hc hp
    simp only [loadState, hl, hrel, hc, hp]
  · intro hl hw hrn hrel
    rw [saveState, hl, hw, hrn, hrel]
    exact ⟨rfl, tempFileName_ne stateFile senv.tempSuffix⟩
  · intro hfail
    rcases hfail with ⟨e, he⟩ | ⟨e, he⟩ | ⟨e, he⟩
    · rw [saveState, he]
      exact ⟨⟨"Failed to save state: " ++ e, rfl⟩, by intro n c hn; cases hn⟩
    · cases hl : senv.lockResult with
      | error el =>
        rw [saveState, hl]
        exact ⟨⟨"Failed to save state: " ++ el, rfl⟩, by intro n c hn; cases hn⟩
      | ok u =>
        cases u
        rw [saveState, hl, he]
        refine ⟨⟨"Failed to save state: " ++ e, rfl⟩, ?_⟩
        intro n c hn
        simp only [List.mem_cons, List.not_mem_nil, or_false] at hn
        rcases hn with hn | hn
        · cases hn
          right
          simp
        · cases hn
    · cases hl : senv.lockResult with
      | error el =>
        rw [saveState, hl]
        exact ⟨⟨"Failed to save state: " ++ el, rfl⟩, by intro n c hn; cases hn⟩
      | ok u =>
        cases u
        cases hw : senv.writeResult with
        | error ew =>
          rw [saveState, hl, hw]
          refine ⟨⟨"Failed to save state: " ++ ew, rfl⟩, ?_⟩
          intro n c hn
          simp only [List.mem_cons, List.not_mem_nil, or_false] at hn
          rcases hn with hn | hn
          · cases hn
            right
            simp
          · cases hn
        | ok u' =>
          cases u'
          rw [saveState, hl, hw, he]
          refine ⟨⟨"Failed to save state: " ++ e, rfl⟩, ?_⟩
          intro n c hn
          simp only [List.mem_cons, List.not_mem_nil, or_false] at hn
          rcases hn with hn | hn | hn
          · cases hn
            left
            simp
          · cases hn
          · cases hn

/-- A load environment whose lock acquisition fails. -/
def loadEnvLockFail : LoadEnv :=
  { lockResult := .error "ELOCKED", readResult := .ok "content",
    parse := fun _ => .ok lifecycleFixture, releaseResult := .ok () }

/-- A save environment whose rename fails. -/
def saveEnvRenameFail : SaveEnv :=
  { lockResult := .ok (), tempSuffix := "1700000000000.k3j2h1a",
    stringify := fun _ => "serialised", writeResult := .ok (),
    renameResult := .error "EPERM", releaseResult := .ok () }

/-- Witness for C3: a failed lock makes `loadState` return the empty
registry, and a failed rename makes `saveState` error without leaking the
temp file. -/
theorem statestore_load_fails_open_save_fails_loud_witness :
    loadState loadEnvLockFail = emptyRegistry ∧
    (∃ msg, (saveState "state.json" saveEnvRenameFail lifecycleFixture).1 = .error msg) ∧
    noTempLeaked (saveState "state.json" saveEnvRenameFail lifecycleFixture).2 := by
  have h := statestore_load_fails_open_save_fails_loud loadEnvLockFail "state.json"
    saveEnvRenameFail lifecycleFixture
  have hfail := h.2.2.2.2.2 (Or.inr (Or.inr ⟨"EPERM", rfl⟩))
  exact ⟨h.1 ⟨"ELOCKED", rfl⟩, hfail.1, hfail.2⟩

/-! ### C4: cleanup boundary -/

/-- The keep-condition applied per session by the cleanup loop: no
`completedAt`, an unparsable date, or an age strictly below 24 hours. -/
def keepSession (parseDate : String → Option Int) (now : Int) (s : Session) : Bool :=
  match s.completedAt with
  | none => true
  | some c =>
    match parseDate c with
    | none => true
    | some t => decide (now - t < twentyFourHoursMs)

/-- The cleanup loop keeps exactly the sessions satisfying `keepSession`
and counts the removed ones. -/
theorem cleanupPass_eq (parseDate : String → Option Int) (now : Int)
    (ss : List (String × Session)) :
    cleanupPass parseDate now ss
      = (ss.filter (fun p => keepSession parseDate now p.2),
         ss.countP (fun p => !keepSession parseDate now p.2)) := by
  induction ss with
  | nil => rfl
  | cons p rest ih =>
    obtain ⟨sid, s⟩ := p
    cases hc : s.completedAt with
    | none =>
      simp [cleanupPass, ih, keepSession, hc, List.filter_cons, List.countP_cons]
    | some c =>
      cases hp : parseDate c with
      | none =>
        simp [cleanupPass, ih, keepSession, hc, hp, List.filter_cons, List.countP_cons]
      | some t =>
        by_cases hge : now - t ≥ twentyFourHoursMs
        · have hk : decide (now - t < twentyFourHoursMs) = false :=
            decide_eq_false (not_lt.mpr hge)
          simp [cleanupPass, ih, keepSession, hc, hp, hge, hk,
            List.filter_cons, List.countP_cons]
        · have hk : decide (now - t < twentyFourHoursMs) = true :=
            decide_eq_true (lt_of_not_ge hge)
          simp [cleanupPass, ih, keepSession, hc, hp, hge, hk,
            List.filter_cons, List.countP_cons]

/-- Kept sessions and removed count partition the input. -/
theorem cleanupPass_length (parseDate : String → Option Int) (now : Int)
    (ss : List (String × Session)) :
    (cleanupPass parseDate now ss).1.length + (cleanupPass parseDate now ss).2
      = ss.length := by
  induction ss with
  | nil => rfl
  | cons p rest ih =>
    obtain ⟨sid, s⟩ := p
    cases hc : s.completedAt with
    | none => simp only [cleanupPass, hc, List.length_cons]; omega
    | some c =>
      cases hp : parseDate c with
      | none => simp only [cleanupPass, hc, hp, List.length_cons]; omega
      | some t =>
        by_cases hge : now - t ≥ twentyFourHoursMs
        · simp only [cleanupPass, hc, hp, if_pos hge, List.length_cons]
          omega
        · simp only [cleanupPass, hc, hp, if_neg hge, List.length_cons]
          omega

/-- A session with no agents and a given `completedAt`, for the boundary
examples. -/
def completedSession (c : Option String) : Session :=
  { agents := [], createdAt := "c0", completedAt := c }

/-- A date parser for the exact-boundary input: `T0` parses to instant 0. -/
def boundaryParse : String → Option Int :=
  fun s => if s = "T0" then some 0 else none

/-- C4 counterexample: with `now` exactly 24 hours after the parsed
`completedAt`, the code removes the session (`ageMs >= 24h`), although the
session is not *more* than 24 hours old — the claimed removal condition
(`now - t > 24h`) is false at this input. -/
theorem cleanup_boundary_counterexample :
    (cleanupOldSessions boundaryParse twentyFourHoursMs
        ⟨[("s", completedSession (some "T0"))]⟩).1.sessions = [] ∧
    boundaryParse "T0" = some 0 ∧
    ¬(twentyFourHoursMs - 0 > twentyFourHoursMs) := by
  refine ⟨by rfl, by rfl, by decide⟩

/-- C4 (amended): `cleanupOldSessions` removes exactly the sessions whose
`completedAt` parses to a valid timestamp **at least** (`≥`, not strictly
more than) 24 hours before now, keeping sessions with a missing or
unparsable `completedAt` regardless of age; a session 24h + 1s old is
removed and one 24h − 1s old is retained; the registry is written back iff
at least one session was removed. -/
theorem cleanup_removes_exactly_sessions_24h_or_older
    (parseDate : String → Option Int) (now : Int) (state : AgentsRegistry) :
    (cleanupOldSessions parseDate now state).1.sessions
        = state.sessions.filter (fun p => keepSession parseDate now p.2) ∧
    (∀ s : Session, keepSession parseDate now s = false ↔
      ∃ c t, s.completedAt = some c ∧ parseDate c = some t ∧
        now - t ≥ twentyFourHoursMs) ∧
    ((cleanupOldSessions parseDate now state).2.2 = true ↔
      0 < (cleanupOldSessions parseDate now state).2.1) ∧
    keepSession (fun _ => some (now - twentyFourHoursMs - 1000)) now
      (completedSession (some "x")) = false ∧
    keepSession (fun _ => some (now - twentyFourHoursMs + 1000)) now
      (completedSession (some "x")) = true ∧
    (∀ s : Session, ∀ c, s.completedAt = some c → parseDate c = none →
      keepSession parseDate now s = true) := by
  refine ⟨?_, ?_, ?_, ?_, ?_, ?_⟩
  · show (cleanupPass parseDate now state.sessions).1 = _
    rw [cleanupPass_eq]
  · intro s
    constructor
    · intro hk
      cases hc : s.completedAt with
      | none =>
        simp only [keepSession, hc] at hk
        exact Bool.noConfusion hk
      | some c =>
        cases hp : parseDate c with
        | none =>
          simp only [keepSession, hc, hp] at hk
          exact Bool.noConfusion hk
        | some t =>
          simp only [keepSession, hc, hp] at hk
          exact ⟨c, t, rfl, hp, not_lt.mp (of_decide_eq_false hk)⟩
    · rintro ⟨c, t, hc, hp, hge⟩
      simp only [keepSession, hc, hp]
      exact decide_eq_false (not_lt.mpr hge)
  · show ((cleanupPass parseDate now state.sessions).2 > 0
        || (cleanupPass parseDate now state.sessions).1.length
            != state.sessions.length) = true ↔
      0 < (cleanupPass parseDate now state.sessions).2
    have hlen := cleanupPass_length parseDate now state.sessions
    by_cases h : 0 < (cleanupPass parseDate now state.sessions).2
    · simp [h]
    · have h0 : (cleanupPass parseDate now state.sessions).2 = 0 := by omega
      have heq : (cleanupPass parseDate now state.sessions).1.length
          = state.sessions.length := by omega
      simp [h0, heq]
  · show decide (now - (now - twentyFourHoursMs - 1000) < twentyFourHoursMs) = false
    refine decide_eq_false (not_lt.mpr ?_)
    omega
  · show decide (now - (now - twentyFourHoursMs + 1000) < twentyFourHoursMs) = true
    refine decide_eq_true ?_
    have h24 : (twentyFourHoursMs : Int) = 86400000 := by decide
    omega
  · intro s c hc hp
    simp only [keepSession, hc, hp]

/-- The date parser of the concrete cleanup witness: `old` is 24h + 1s
before the witness `now`, `fresh` is 24h − 1s before it. -/
def witnessParse : String → Option Int :=
  fun s => if s = "old" then some (-1000) else if s = "fresh" then some 1000 else none

/-- A registry exercising every cleanup case. -/
def witnessRegistry : AgentsRegistry :=
  ⟨[("s1", completedSession (some "old")), ("s2", completedSession (some "fresh")),
    ("s3", completedSession (some "bad")), ("s4", completedSession none)]⟩

/-- Witness for C4 on the concrete registry: only the 24h + 1s-old session
is dropped, the write-back flag is set, and the boundary session is removed
because its age is ≥ 24h. -/
theorem cleanup_removes_exactly_sessions_24h_or_older_witness :
    (cleanupOldSessions witnessParse twentyFourHoursMs witnessRegistry).1.sessions
        = [("s2", completedSession (some "fresh")), ("s3", completedSession (some "bad")),
           ("s4", completedSession none)] ∧
    keepSession witnessParse twentyFourHoursMs (completedSession (some "old")) = false ∧
    (cleanupOldSessions witnessParse twentyFourHoursMs witnessRegistry).2.2 = true := by
  have h := cleanup_removes_exactly_sessions_24h_or_older witnessParse twentyFourHoursMs
    witnessRegistry
  refine ⟨by rw [h.1]; rfl, ?_, ?_⟩
  · exact (h.2.1 (completedSession (some "old"))).mpr
      ⟨"old", -1000, rfl, rfl, by decide⟩
  · exact h.2.2.1.mpr (by decide)

/-! ### C5: scope precedence -/

/-- Filtering by a predicate implied by the search predicate does not change
the first match. -/
theorem find?_filter_of_imp {α : Type} (pred q : α → Bool)
    (h : ∀ x, pred x = true → q x = true) (l : List α) :
    (l.filter q).find? pred = l.find? pred := by
  induction l with
  | nil => rfl
  | cons a rest ih =>
    by_cases hp : pred a = true
    · have hq := h a hp
      simp only [List.filter_cons, hq, if_true, List.find?_cons, hp]
    · by_cases hq : q a = true
      · simp only [List.filter_cons, hq, if_true, List.find?_cons, hp,
          Bool.false_eq_true, ih]
      · simp only [List.filter_cons, hq, if_false, Bool.false_eq_true, ih]
        rw [List.find?_cons_of_neg _ (by simpa using hp)]

/-- The overriding map of `spreadMerge` preserves keys, so the first match
for a key in the mapped global list is the mapped first match. -/
theorem find?_spreadMerge_map (p : TaskTypeMapping) (k : String) (g : TaskTypeMapping) :
    (g.map (fun kv => match ttLookup p kv.1 with
      | some v => (kv.1, v)
      | none => kv)).find? (fun q => q.1 == k)
      = (g.find? (fun q => q.1 == k)).map (fun kv => match ttLookup p kv.1 with
          | some v => (kv.1, v)
          | none => kv) := by
  induction g with
  | nil => rfl
  | cons kv rest ih =>
    have hkey : ((match ttLookup p kv.1 with
        | some v => (kv.1, v)
        | none => kv) : String × List String).1 = kv.1 := by
      cases ttLookup p kv.1 <;> rfl
    by_cases hk : (kv.1 == k) = true
    · simp only [List.map_cons, List.find?_cons, hkey, hk]
      rfl
    · simp only [List.map_cons, List.find?_cons, hkey, hk, Bool.false_eq_true, ih]

/-- For a key the project scope defines, the spread merge resolves to the
project value. -/
theorem ttLookup_spreadMerge (g p : TaskTypeMapping) (k : String)
    (h : (ttLookup p k).isSome = true) :
    ttLookup (spreadMerge g p) k = ttLookup p k := by
  obtain ⟨v, hv⟩ := Option.isSome_iff_exists.mp h
  have hfp : p.find? (fun q => q.1 == k) = some (k, v) := by
    rw [ttLookup] at hv
    cases hf : p.find? (fun q => q.1 == k) with
    | none => rw [hf] at hv; cases hv
    | some kv =>
      have hkey : kv.1 = k := by simpa using List.find?_some hf
      rw [hf, Option.map_some'] at hv
      cases hv
      obtain ⟨k1, v1⟩ := kv
      simp only at hkey
      rw [hkey]
  show ((spreadMerge g p).find? (fun q => q.1 == k)).map Prod.snd = ttLookup p k
  rw [spreadMerge, List.find?_append, find?_spreadMerge_map p k g]
  cases hg : g.find? (fun q => q.1 == k) with
  | some kv =>
    have hkey : kv.1 = k := by simpa using List.find?_some hg
    rw [Option.map_some', Option.or]
    have : ttLookup p kv.1 = some v := by rw [hkey]; exact hv
    simp only [this]
    rw [hv, Option.map_some']
  | none =>
    rw [Option.map_none', Option.or]
    have hgk : ttLookup g k = none := by rw [ttLookup, hg]; rfl
    rw [find?_filter_of_imp _ _ ?_ p, hfp, Option.map_some', hv]
    intro x hx
    have hxk : x.1 = k := by simpa using hx
    rw [hxk, hgk]
    rfl

/-- The commands-directory environment where the same command file exists
in both scopes. -/
def bothScopesCmdEnv : CommandsDirEnv :=
  { globalFiles := ["deploy.md"], projectFiles := ["deploy.md"],
    readGlobal := fun _ => .ok "# Deploy globally",
    readProject := fun _ => .ok "# Deploy locally" }

/-- C5 counterexample: when a command's file exists in both scopes, the
resolved scope reported by `getCommandLocation` and by
`getAllAvailableCommands` is the **global** scope, not the project scope
the claim states — `fs.access` probes the global directory first and the
listing skips project duplicates of global names. -/
theorem command_scope_resolves_global_counterexample :
    getCommandLocation true true = some Scope.globalScope ∧
    some Scope.globalScope ≠ some Scope.projectScope ∧
    getAllAvailableCommands (fun _ _ => true) bothScopesCmdEnv
      = [⟨"deploy", "Deploy globally", Scope.globalScope⟩] := by
  refine ⟨rfl, by decide, ?_⟩
  have h1 : addProjectCommands bothScopesCmdEnv bothScopesCmdEnv.projectFiles
      (globalCommandEntries bothScopesCmdEnv)
      = [⟨"deploy", "Deploy globally", Scope.globalScope⟩] := by rfl
  show (addProjectCommands bothScopesCmdEnv bothScopesCmdEnv.projectFiles
      (globalCommandEntries bothScopesCmdEnv)).mergeSort
      (fun a b => (fun _ _ => true) a.name b.name) = _
  rw [h1]
  exact List.perm_singleton.mp (List.mergeSort_perm _ _)

/-- C5 (amended): for a key defined in both scopes, the project scope wins
for jobs (file resolution and listing) and for task types (spread-merge
lookup); for commands, either scope satisfies existence but the scope
reported by `getCommandLocation` is the **global** one, because the global
directory is probed first. -/
theorem scope_precedence_project_wins_except_commands
    (le : String → String → Bool) :
    (∀ jobId localContent globalResult,
        loadJobFileRaw jobId (.ok localContent) globalResult
          = .ok (localContent, .projectScope)) ∧
    (∀ projectJobs globalJobs jobId, jobId ∈ projectJobs → jobId ∈ globalJobs →
        (jobId, Scope.projectScope) ∈ listAllJobs le projectJobs globalJobs ∧
        (jobId, Scope.globalScope) ∉ listAllJobs le projectJobs globalJobs) ∧
    (∀ defaults g p, loadTaskTypes defaults (.ok g) (.ok p) = spreadMerge g p) ∧
    (∀ g p k, (ttLookup p k).isSome = true →
        ttLookup (spreadMerge g p) k = ttLookup p k) ∧
    (∀ gE pE : Bool, gE = true → pE = true →
        getCommandLocation gE pE = some Scope.globalScope ∧
        commandExists gE pE = true) := by
  refine ⟨fun _ _ _ => rfl, ?_, fun _ _ _ => rfl, ttLookup_spreadMerge, ?_⟩
  · intro pJobs gJobs jobId hp hg
    constructor
    · rw [listAllJobs]
      apply List.mem_mergeSort.mpr
      rw [listAllJobsUnsorted]
      exact List.mem_append_left _ (List.mem_map.mpr ⟨jobId, hp, rfl⟩)
    · intro hmem
      rw [listAllJobs] at hmem
      have hmem' := List.mem_mergeSort.mp hmem
      rw [listAllJobsUnsorted] at hmem'
      rcases List.mem_append.mp hmem' with h1 | h1
      · obtain ⟨x, hx, hxe⟩ := List.mem_map.mp h1
        exact Scope.noConfusion (congrArg Prod.snd hxe)
      · obtain ⟨x, hx, hxe⟩ := List.mem_map.mp h1
        have hxj : x = jobId := congrArg Prod.fst hxe
        subst hxj
        have hc := (List.mem_filter.mp hx).2
        simp only [Bool.not_eq_true'] at hc
        have : x ∈ pJobs → pJobs.contains x = true := by
          intro hm
          simpa using hm
        rw [this hp] at hc
        exact Bool.noConfusion hc
  · intro gE pE h1 h2
    subst h1
    subst h2
    exact ⟨rfl, rfl⟩

/-- Witness for C5 on concrete data: local job file preferred, listing
reports the shared job id as project-scoped only, the merged task type
takes the project command list, and a command present in both scopes
resolves to the global scope. -/
theorem scope_precedence_project_wins_except_commands_witness :
    loadJobFileRaw "build" (.ok "local-job") (.ok "global-job")
      = .ok ("local-job", Scope.projectScope) ∧
    ("shared", Scope.projectScope) ∈ listAllJobs (fun _ _ => true) ["shared"] ["shared"] ∧
    ("shared", Scope.globalScope) ∉ listAllJobs (fun _ _ => true) ["shared"] ["shared"] ∧
    ttLookup (spreadMerge [("deploy", ["g1", "g2"])] [("deploy", ["p1"])]) "deploy"
      = some ["p1"] ∧
    getCommandLocation true true = some Scope.globalScope := by
  have h := scope_precedence_project_wins_except_commands (fun _ _ => true)
  have hj := h.2.1 ["shared"] ["shared"] "shared" (by simp) (by simp)
  have ht := h.2.2.2.1 [("deploy", ["g1", "g2"])] [("deploy", ["p1"])] "deploy" (by rfl)
  exact ⟨h.1 "build" "local-job" (.ok "global-job"), hj.1, hj.2,
    by rw [ht]; rfl, (h.2.2.2.2 true true rfl rfl).1⟩

/-! ### C6: exhaustive task validation -/

/-- A single-task validation error always carries the task's 1-based index
and, when the task has a name, that name (`validateTaskStructure`). -/
theorem validateTaskStructure_fields (task : JobTask) (i : Nat)
    (tt : TaskTypeMapping) (e : TaskValidationError)
    (h : validateTaskStructure task i tt = some e) :
    e.taskIndex = i + 1 ∧ (task.name ≠ "" → e.taskName = task.name) := by
  unfold validateTaskStructure at h
  split_ifs at h with h1 h2 h3 h4 <;> cases h
  · exact ⟨rfl, fun hn => absurd h1 hn⟩
  · exact ⟨rfl, fun _ => rfl⟩
  · exact ⟨rfl, fun _ => rfl⟩
  · exact ⟨rfl, fun _ => rfl⟩

/-- The loop body's error always carries the task's 1-based index and, when
the task has a name, that name. -/
theorem taskError_fields (exists? : String → Bool) (tt : TaskTypeMapping)
    (i : Nat) (task : JobTask) (e : TaskValidationError)
    (h : taskError exists? tt i task = some e) :
    e.taskIndex = i + 1 ∧ (task.name ≠ "" → e.taskName = task.name) := by
  unfold taskError at h
  cases hv : validateTaskStructure task i tt with
  | some e0 =>
    simp only [hv] at h
    cases h
    exact validateTaskStructure_fields task i tt _ hv
  | none =>
    simp only [hv] at h
    split_ifs at h <;> cases h
    · exact ⟨rfl, fun _ => rfl⟩
    · exact ⟨rfl, fun _ => rfl⟩

/-- Every error of the validation loop started at `i` has index above `i`. -/
theorem validateAllTasksAux_lower (exists? : String → Bool) (tt : TaskTypeMapping) :
    ∀ (tasks : List JobTask) (i : Nat) (e : TaskValidationError),
      e ∈ validateAllTasksAux exists? tt i tasks → i < e.taskIndex := by
  intro tasks
  induction tasks with
  | nil => intro i e he; cases he
  | cons t rest ih =>
    intro i e he
    rw [validateAllTasksAux] at he
    cases ht : taskError exists? tt i t with
    | some e0 =>
      rw [ht] at he
      rcases List.mem_cons.mp he with he | he
      · subst he
        rw [(taskError_fields exists? tt i t _ ht).1]
        omega
      · have := ih (i + 1) e he
        omega
    | none =>
      rw [ht] at he
      have := ih (i + 1) e he
      omega

/-- The validation loop reports errors with strictly increasing task
indices: in particular at most one error per task. -/
theorem validateAllTasksAux_pairwise (exists? : String → Bool) (tt : TaskTypeMapping) :
    ∀ (tasks : List JobTask) (i : Nat),
      List.Pairwise (fun e₁ e₂ => e₁.taskIndex < e₂.taskIndex)
        (validateAllTasksAux exists? tt i tasks) := by
  intro tasks
  induction tasks with
  | nil => intro i; exact List.Pairwise.nil
  | cons t rest ih =>
    intro i
    rw [validateAllTasksAux]
    cases ht : taskError exists? tt i t with
    | some e0 =>
      refine List.Pairwise.cons ?_ (ih (i + 1))
      intro e' he'
      rw [(taskError_fields exists? tt i t e0 ht).1]
      exact validateAllTasksAux_lower exists? tt rest (i + 1) e' he'
    | none => exact ih (i + 1)

/-- Soundness of the loop: every reported error comes from the task at its
1-based index, via the single-task check. -/
theorem validateAllTasksAux_sound (exists? : String → Bool) (tt : TaskTypeMapping) :
    ∀ (tasks : List JobTask) (i : Nat) (e : TaskValidationError),
      e ∈ validateAllTasksAux exists? tt i tasks →
      ∃ j t, tasks.get? j = some t ∧ e.taskIndex = i + j + 1 ∧
        taskError exists? tt (i + j) t = some e := by
  intro tasks
  induction tasks with
  | nil => intro i e he; cases he
  | cons t rest ih =>
    intro i e he
    rw [validateAllTasksAux] at he
    have tailCase : e ∈ validateAllTasksAux exists? tt (i + 1) rest →
        ∃ j t', (t :: rest).get? j = some t' ∧ e.taskIndex = i + j + 1 ∧
          taskError exists? tt (i + j) t' = some e := by
      intro he'
      obtain ⟨j, t', hg, hidx, hte⟩ := ih (i + 1) e he'
      refine ⟨j + 1, t', by simpa using hg, by omega, ?_⟩
      have : i + (j + 1) = i + 1 + j := by omega
      rw [this]
      exact hte
    cases ht : taskError exists? tt i t with
    | some e0 =>
      rw [ht] at he
      rcases List.mem_cons.mp he with he | he
      · subst he
        exact ⟨0, t, rfl, by
          rw [(taskError_fields exists? tt i t _ ht).1], by simpa using ht⟩
      · exact tailCase he
    | none =>
      rw [ht] at he
      exact tailCase he

/-- Completeness of the loop: every invalid task produces its error. -/
theorem validateAllTasksAux_complete (exists? : String → Bool) (tt : TaskTypeMapping) :
    ∀ (tasks : List JobTask) (i k : Nat) (t : JobTask) (e : TaskValidationError),
      tasks.get? k = some t → taskError exists? tt (i + k) t = some e →
      e ∈ validateAllTasksAux exists? tt i tasks := by
  intro tasks
  induction tasks with
  | nil => intro i k t e hg; cases hg
  | cons t0 rest ih =>
    intro i k t e hg hte
    rw [validateAllTasksAux]
    cases k with
    | zero =>
      cases hg
      rw [Nat.add_zero] at hte
      simp only [hte]
      exact List.mem_cons_self _ _
    | succ k' =>
      have hg' : rest.get? k' = some t := by simpa using hg
      have hte' : taskError exists? tt (i + 1 + k') t = some e := by
        have : i + 1 + k' = i + (k' + 1) := by omega
        rw [this]
        exact hte
      have hmem := ih (i + 1) k' t e hg' hte'
      cases ht : taskError exists? tt i t0 with
      | some e0 => exact List.mem_cons_of_mem e0 hmem
      | none => exact hmem

/-- Generic counting: `filterMap` keeps as many elements as satisfy the
partial function. -/
theorem length_filterMap_eq_countP {α β : Type} (f : α → Option β) (l : List α) :
    (l.filterMap f).length = l.countP (fun x => (f x).isSome) := by
  induction l with
  | nil => rfl
  | cons a rest ih =>
    cases hf : f a <;>
      simp [List.filterMap_cons, hf, List.countP_cons, ih]

/-- The validation loop, unrolled to a `filterMap` over indexed tasks. -/
theorem validateAllTasksAux_eq_filterMap (exists? : String → Bool)
    (tt : TaskTypeMapping) :
    ∀ (tasks : List JobTask) (i : Nat),
      validateAllTasksAux exists? tt i tasks
        = (tasks.enumFrom i).filterMap (fun p => taskError exists? tt p.1 p.2) := by
  intro tasks
  induction tasks with
  | nil => intro i; rfl
  | cons t rest ih =>
    intro i
    rw [validateAllTasksAux, List.enumFrom, List.filterMap_cons]
    cases ht : taskError exists? tt i t with
    | some e0 => rw [ih (i + 1)]
    | none => rw [ih (i + 1)]

/-- The task-type mapping of the concrete validation scenario. -/
def scenarioTaskTypes : TaskTypeMapping :=
  [("implement", ["understand", "implement"]), ("research", ["research", "document"])]

/-- Three tasks of which the first and third reference unknown task
types. -/
def scenarioTasks : List JobTask :=
  [⟨"task-a", "nonexistent", [], "p1"⟩, ⟨"task-b", "implement", [], "p2"⟩,
   ⟨"task-c", "bogus", [], "p3"⟩]

/-- C6: `validateAllTasks` reports errors with strictly increasing 1-based
task indices (hence at most one error per task); each reported error is the
single-task error of the task at its index (carrying that task's name); each
invalid task contributes its error; the number of errors equals the number
of invalid tasks; and on the concrete 3-task scenario with tasks 1 and 3
invalid it reports exactly the 2 errors for indices 1 and 3, naming the
unknown type and listing the available type names. -/
theorem validateAllTasks_report (exists? : String → Bool) (tt : TaskTypeMapping)
    (tasks : List JobTask) :
    List.Pairwise (fun e₁ e₂ => e₁.taskIndex < e₂.taskIndex)
      (validateAllTasks exists? tt tasks) ∧
    (validateAllTasks exists? tt tasks).length
      = tasks.enum.countP (fun p => (taskError exists? tt p.1 p.2).isSome) ∧
    (∀ e ∈ validateAllTasks exists? tt tasks,
      ∃ j t, tasks.get? j = some t ∧ e.taskIndex = j + 1 ∧
        taskError exists? tt j t = some e ∧
        (t.name ≠ "" → e.taskName = t.name)) ∧
    (∀ k t e, tasks.get? k = some t → taskError exists? tt k t = some e →
      e ∈ validateAllTasks exists? tt tasks) ∧
    validateAllTasks (fun _ => true) scenarioTaskTypes scenarioTasks
      = [⟨1, "task-a",
          "Task type \"nonexistent\" not found. Available types: implement, research"⟩,
         ⟨3, "task-c",
          "Task type \"bogus\" not found. Available types: implement, research"⟩] := by
  refine ⟨validateAllTasksAux_pairwise exists? tt tasks 0, ?_, ?_, ?_, ?_⟩
  · rw [validateAllTasks, validateAllTasksAux_eq_filterMap exists? tt tasks 0,
      length_filterMap_eq_countP]
    rfl
  · intro e he
    obtain ⟨j, t, hg, hidx, hte⟩ := validateAllTasksAux_sound exists? tt tasks 0 e he
    simp only [Nat.zero_add] at hidx hte
    exact ⟨j, t, hg, hidx, hte, (taskError_fields exists? tt j t e hte).2⟩
  · intro k t e hg hte
    exact validateAllTasksAux_complete exists? tt tasks 0 k t e hg
      (by simpa using hte)
  · rfl

/-- Witness for C6: in the concrete scenario, exactly two errors are
reported; the second invalid task (`task-c` at 1-based index 3) indeed
contributes its membership through the completeness direction. -/
theorem validateAllTasks_report_witness :
    (validateAllTasks (fun _ => true) scenarioTaskTypes scenarioTasks).length = 2 ∧
    (⟨3, "task-c",
        "Task type \"bogus\" not found. Available types: implement, research"⟩ :
        TaskValidationError) ∈
      validateAllTasks (fun _ => true) scenarioTaskTypes scenarioTasks := by
  have h := validateAllTasks_report (fun _ => true) scenarioTaskTypes scenarioTasks
  refine ⟨by rw [h.2.2.2.2]; rfl, ?_⟩
  exact h.2.2.2.1 2 ⟨"task-c", "bogus", [], "p3"⟩ _ (by rfl) (by rfl)

/-! ### C7 / C8: detached scheduler timing -/

/-- The follow-up loop schedules follow-up `k` (counting from the loop's
start index) at `delaySeconds + 6 + 4·(start + k)`, with its Enter one
estimated typing time later. -/
theorem followUpOps_get (D : ℚ) :
    ∀ (fs : List String) (i k : Nat) (f : String), fs.get? k = some f →
      (followUpOps D i fs).get? (2 * k)
          = some ⟨D + 6 + 4 * ((i + k : Nat) : ℚ), .typeText f⟩ ∧
      (followUpOps D i fs).get? (2 * k + 1)
          = some ⟨D + 6 + 4 * ((i + k : Nat) : ℚ) + typingTime f, .pressEnter⟩ := by
  intro fs
  induction fs with
  | nil => intro i k f hg; cases hg
  | cons f0 rest ih =>
    intro i k f hg
    cases k with
    | zero =>
      cases hg
      constructor
      · show some _ = _
        norm_num
      · show some _ = _
        norm_num
    | succ k' =>
      have hg' : rest.get? k' = some f := by simpa using hg
      have h' := ih (i + 1) k' f hg'
      have hcast : ((i + 1 + k' : Nat) : ℚ) = ((i + (k' + 1) : Nat) : ℚ) := by
        congr 1
        omega
      rw [hcast] at h'
      have h2 : 2 * (k' + 1) = 2 * k' + 1 + 1 := by omega
      rw [h2, followUpOps]
      constructor
      · rw [List.get?_cons_succ, List.get?_cons_succ]
        exact h'.1
      · rw [List.get?_cons_succ, List.get?_cons_succ]
        exact h'.2

/-- C7: in detached mode an agent with base delay `D` opens the link at
`D`, presses Enter at `D + 2` and `D + 4`, starts typing follow-up `k` at
`D + 6 + 4k`, and presses its Enter `max(0.5, 0.01·length)` seconds after
the typing starts. -/
theorem detached_schedule_offsets (D : ℚ) (url : String) (fs : List String) :
    (spawnAgentSchedule D url fs).length = 3 + 2 * fs.length ∧
    (spawnAgentSchedule D url fs).take 3
      = [⟨D, .openLink url⟩, ⟨D + 2, .pressEnter⟩, ⟨D + 4, .pressEnter⟩] ∧
    (∀ k f, fs.get? k = some f →
      (spawnAgentSchedule D url fs).get? (3 + 2 * k)
          = some ⟨D + 6 + 4 * (k : ℚ), .typeText f⟩ ∧
      (spawnAgentSchedule D url fs).get? (3 + 2 * k + 1)
          = some ⟨D + 6 + 4 * (k : ℚ) + typingTime f, .pressEnter⟩) := by
  refine ⟨?_, rfl, ?_⟩
  · have hlen : ∀ (l : List String) (i : Nat), (followUpOps D i l).length = 2 * l.length := by
      intro l
      induction l with
      | nil => intro i; rfl
      | cons a rest ih =>
        intro i
        rw [followUpOps]
        simp only [List.length_cons, ih (i + 1)]
        omega
    simp only [spawnAgentSchedule, List.length_cons, hlen fs 0]
    omega
  · intro k f hg
    have h := followUpOps_get D fs 0 k f hg
    simp only [Nat.zero_add] at h
    have e1 : 3 + 2 * k = (2 * k) + 1 + 1 + 1 := by omega
    have e2 : 3 + 2 * k + 1 = ((2 * k + 1) + 1 + 1) + 1 := by omega
    constructor
    · rw [e1]
      simp only [spawnAgentSchedule]
      rw [List.get?_cons_succ, List.get?_cons_succ, List.get?_cons_succ]
      exact h.1
    · rw [e2]
      simp only [spawnAgentSchedule]
      rw [List.get?_cons_succ, List.get?_cons_succ, List.get?_cons_succ]
      exact h.2

/-- The first default follow-up prompt (no placeholder, so substitution
keeps it unchanged). -/
def defaultPromptZero : String :=
  "Verify if the changes you have implemented are actually working and align with the instructions provided!"

/-- Witness for C7: with base delay 10, the first default follow-up of a
concrete agent types at offset 16 = 10 + 6 + 4·0 and its Enter fires one
typing time later. -/
theorem detached_schedule_offsets_witness :
    (getDefaultPrompts "abc123").get? 0 = some defaultPromptZero ∧
    (spawnAgentSchedule 10 "u" (getDefaultPrompts "abc123")).get? 3
      = some ⟨16, .typeText defaultPromptZero⟩ ∧
    (spawnAgentSchedule 10 "u" (getDefaultPrompts "abc123")).get? 4
      = some ⟨16 + typingTime defaultPromptZero, .pressEnter⟩ := by
  have h := detached_schedule_offsets 10 "u" (getDefaultPrompts "abc123")
  have hg : (getDefaultPrompts "abc123").get? 0 = some defaultPromptZero := by rfl
  have hk := h.2.2 0 defaultPromptZero hg
  have hoff : (10 + 6 + 4 * ((0 : Nat) : ℚ) : ℚ) = 16 := by norm_num
  refine ⟨hg, ?_, ?_⟩
  · have := hk.1
    rw [hoff] at this
    exact this
  · have := hk.2
    rw [hoff] at this
    exact this

/-- The running maximum of a schedule never drops below its floor. -/
theorem le_scheduleMaxOffset_base (ops : List ScheduledOp) :
    ∀ D : ℚ, D ≤ scheduleMaxOffset D ops := by
  induction ops with
  | nil => intro D; exact le_refl D
  | cons o rest ih =>
    intro D
    calc D ≤ max D o.offset := le_max_left _ _
    _ ≤ scheduleMaxOffset (max D o.offset) rest := ih _

/-- Every scheduled operation's offset is bounded by the schedule's last
operation time. -/
theorem le_scheduleMaxOffset_of_mem (ops : List ScheduledOp) :
    ∀ (D : ℚ) (op : ScheduledOp), op ∈ ops → op.offset ≤ scheduleMaxOffset D ops := by
  induction ops with
  | nil => intro D op h; cases h
  | cons o rest ih =>
    intro D op h
    rcases List.mem_cons.mp h with h | h
    · subst h
      calc op.offset ≤ max D op.offset := le_max_right _ _
      _ ≤ scheduleMaxOffset (max D op.offset) rest := le_scheduleMaxOffset_base rest _
    · exact ih _ op h

/-- C8 counterexample: `spawnAgents` starts successive agents a fixed 6
seconds apart (`index * 6`), but with the default two follow-up prompts one
agent's automation sequence lasts at least 10 seconds from its open to its
last scheduled operation — the stride is not the computed total duration of
a sequence, and consecutive sequences overlap beyond their boundaries. -/
theorem spawn_stride_counterexample :
    spawnAgentsDelay 1 - spawnAgentsDelay 0 = 6 ∧
    (getDefaultPrompts "abc123").length = 2 ∧
    10 ≤ scheduleDuration 0 "u" (getDefaultPrompts "abc123") ∧
    spawnAgentsDelay 1 - spawnAgentsDelay 0
      ≠ scheduleDuration 0 "u" (getDefaultPrompts "abc123") := by
  have hlen : (getDefaultPrompts "abc123").length = 2 := by rfl
  have hdur : 10 ≤ scheduleDuration 0 "u" (getDefaultPrompts "abc123") := by
    cases hg : (getDefaultPrompts "abc123").get? 1 with
    | none =>
      have := List.get?_eq_none.mp hg
      rw [hlen] at this
      omega
    | some f =>
      have h := followUpOps_get 0 (getDefaultPrompts "abc123") 0 1 f hg
      have hmem : (⟨0 + 6 + 4 * ((0 + 1 : Nat) : ℚ), .typeText f⟩ : ScheduledOp)
          ∈ spawnAgentSchedule 0 "u" (getDefaultPrompts "abc123") := by
        have hmem' := List.get?_mem h.1
        simp only [spawnAgentSchedule]
        exact List.mem_cons_of_mem _ (List.mem_cons_of_mem _ (List.mem_cons_of_mem _ hmem'))
      have hb := le_scheduleMaxOffset_of_mem _ 0 _ hmem
      have hoff : ((⟨0 + 6 + 4 * ((0 + 1 : Nat) : ℚ), .typeText f⟩ : ScheduledOp)).offset
          = 10 := by norm_num
      rw [hoff] at hb
      show 10 ≤ scheduleMaxOffset 0 (spawnAgentSchedule 0 "u" (getDefaultPrompts "abc123")) - 0
      linarith
  refine ⟨by norm_num [spawnAgentsDelay], hlen, hdur, ?_⟩
  intro hcontra
  rw [show spawnAgentsDelay 1 - spawnAgentsDelay 0 = 6 by norm_num [spawnAgentsDelay]]
    at hcontra
  rw [← hcontra] at hdur
  norm_num at hdur

/-- C8 (amended): `spawnAgents` offsets successive agents by a **fixed 6
seconds** (the open/Enter/Enter kickoff window, `delaySeconds = index * 6`),
not by the computed total duration of an agent's sequence; since the default
follow-up prompts extend a sequence to at least `D + 10`, consecutive
agents' sequences overlap beyond their boundaries. -/
theorem spawn_stride_fixed_six_seconds (i : Nat) (url agentId : String) (D : ℚ)
    (fs : List String) :
    spawnAgentsDelay (i + 1) - spawnAgentsDelay i = 6 ∧
    (getDefaultPrompts agentId).length = 2 ∧
    (∀ f₁, fs.get? 1 = some f₁ →
      D + 10 ≤ scheduleMaxOffset D (spawnAgentSchedule D url fs)) := by
  refine ⟨?_, rfl, ?_⟩
  · simp only [spawnAgentsDelay]
    push_cast
    ring
  · intro f₁ hg
    have h := followUpOps_get D fs 0 1 f₁ hg
    have hmem : (⟨D + 6 + 4 * ((0 + 1 : Nat) : ℚ), .typeText f₁⟩ : ScheduledOp)
        ∈ spawnAgentSchedule D url fs := by
      have hmem' := List.get?_mem h.1
      simp only [spawnAgentSchedule]
      exact List.mem_cons_of_mem _ (List.mem_cons_of_mem _ (List.mem_cons_of_mem _ hmem'))
    have hb := le_scheduleMaxOffset_of_mem _ D _ hmem
    have hoff : ((⟨D + 6 + 4 * ((0 + 1 : Nat) : ℚ), .typeText f₁⟩ : ScheduledOp)).offset
        = D + 10 := by push_cast; ring
    rw [hoff] at hb
    exact hb

/-- Witness for C8: the concrete default follow-ups of agent `abc123` have
a second entry, so the sequence of the first agent (base delay 0) reaches
offset 10 while the second agent already starts at offset 6. -/
theorem spawn_stride_fixed_six_seconds_witness :
    spawnAgentsDelay 1 - spawnAgentsDelay 0 = 6 ∧
    (getDefaultPrompts "abc123").get? 1
      = some "to hand off your work run the following command: csa complete abc123" ∧
    10 ≤ scheduleMaxOffset 0 (spawnAgentSchedule 0 "u" (getDefaultPrompts "abc123")) := by
  have h := spawn_stride_fixed_six_seconds 0 "u" "abc123" 0 (getDefaultPrompts "abc123")
  have hg : (getDefaultPrompts "abc123").get? 1
      = some "to hand off your work run the following command: csa complete abc123" := by rfl
  have hd := h.2.2 _ hg
  refine ⟨by simpa using h.1, hg, by linarith⟩
